import Mathlib

/-!
Verification development for the resistor-network calculator
(`src/resistor.c`).  The C program's core — enumeration of series/parallel
resistor networks by size, tolerance filtering, ranking, resistor
colour/SMD code derivation, label parsing and the R-2R ladder arithmetic —
is shallowly embedded here.  C `double` values are modelled as exact
rationals (ℚ); machine floating point rounding is outside the model.
Display-only text fields (the `expr` strings built with `snprintf`, bounded
by `MAX_EXPR`) are not part of any verified property and are omitted from
the records; everything the code computes with (`R`, `n`, `parts`,
`num_parts`, `error`, the counts and caps) is modelled.
-/

/-- `MAX_N` from resistor.c: maximum resistors in a network. -/
def MAX_N : ℕ := 5

/-- `MAX_NETWORKS` from resistor.c: cap on stored networks per size. -/
def MAX_NETWORKS : ℕ := 10000

/-- `MAX_RESULTS` from resistor.c: maximum results displayed. -/
def MAX_RESULTS : ℕ := 50

/-- `MAX_RESISTORS_PER_NET` from resistor.c: cap on tracked part values. -/
def MAX_RESISTORS_PER_NET : ℕ := 8

/-- The `Network` struct: equivalent resistance `R`, resistor count `n`,
and the tracked individual part values (`parts` together with
`num_parts`, modelled as a single list whose length is `num_parts`). -/
structure Network where
  R : ℚ
  n : ℕ
  parts : List ℚ
deriving DecidableEq

/-- Appending a candidate network to a bucket, guarded by the
`count[n] < MAX_NETWORKS` check that precedes every store in
`on_calculate_clicked`; a full bucket silently discards the candidate. -/
def addNetwork (bucket : List Network) (x : Network) : List Network :=
  if bucket.length < MAX_NETWORKS then bucket ++ [x] else bucket

/-- The series combination built at lines 515–531: `R = A.R + B.R`,
`n = A.n + B.n`, parts copied from both operands, each copy loop stopping
at `MAX_RESISTORS_PER_NET`. -/
def mkSeries (a b : Network) : Network :=
  { R := a.R + b.R
    n := a.n + b.n
    parts := (a.parts ++ b.parts).take MAX_RESISTORS_PER_NET }

/-- The parallel combination built at lines 533–551:
`R = 1/(1/A.R + 1/B.R)`, same `n` and parts handling as series. -/
def mkParallel (a b : Network) : Network :=
  { R := 1 / (1 / a.R + 1 / b.R)
    n := a.n + b.n
    parts := (a.parts ++ b.parts).take MAX_RESISTORS_PER_NET }

/-- One iteration of the innermost enumeration loop body: append the
series network (subject to the bucket cap), then append the parallel
network only when both sub-resistances are strictly positive (the
`networks[i][a].R > 0 && networks[j_idx][b].R > 0` guard). -/
def combineStep (acc : List Network) (a b : Network) : List Network :=
  let acc1 := addNetwork acc (mkSeries a b)
  if 0 < a.R ∧ 0 < b.R then addNetwork acc1 (mkParallel a b) else acc1

/-- Base case (lines 481–492): one single-resistor network per available
value. -/
def singleNetwork (v : ℚ) : Network :=
  { R := v, n := 1, parts := [v] }

/-- Bucket 1: every available value becomes a single-resistor network,
subject to the same bucket cap. -/
def baseBucket (available : List ℚ) : List Network :=
  available.foldl (fun acc v => addNetwork acc (singleNetwork v)) []

/-- The index pairs visited by the `a`/`b` loops at lines 503–505: `a`
ranges over bucket `i`, and `b` starts at `a` when the two buckets are the
same size (`i == j_idx`), else at `0` — mirroring
`int b_start = (i == j_idx) ? a : 0;`. -/
def pairIdxList (leni lenj : ℕ) (same : Bool) : List (ℕ × ℕ) :=
  (List.range leni).flatMap fun a =>
    (List.range' (if same then a else 0) (lenj - (if same then a else 0))).map
      fun b => (a, b)

/-- Placeholder network used to express C array indexing as `getD`; the
enumeration only uses indices that are in range. -/
def defaultNetwork : Network :=
  { R := 0, n := 0, parts := [] }

/-- The operand pairs drawn from buckets `bi` and `bj`, in loop order. -/
def pairNetworks (bi bj : List Network) (same : Bool) : List (Network × Network) :=
  (pairIdxList bi.length bj.length same).map
    fun ab => (bi.getD ab.1 defaultNetwork, bj.getD ab.2 defaultNetwork)

/-- Construction of bucket `n` (lines 495–555): for every split
`i + j_idx = n` with `1 ≤ i < n`, fold the series/parallel emission over
all operand pairs, all splits sharing one capped bucket. -/
def buildBucket (buckets : List (List Network)) (n : ℕ) : List Network :=
  (List.range' 1 (n - 1)).foldl
    (fun acc i =>
      (pairNetworks (buckets.getD i []) (buckets.getD (n - i) []) (i == n - i)).foldl
        (fun acc2 ab => combineStep acc2 ab.1 ab.2) acc)
    []

/-- The whole `networks` array after enumeration: index 0 is the unused
slot, index 1 the base bucket, and buckets 2..MAX_N are built in order,
each reading only strictly smaller buckets. -/
def buildAll (available : List ℚ) : List (List Network) :=
  (List.range' 2 (MAX_N - 1)).foldl
    (fun bs n => bs ++ [buildBucket bs n])
    [[], baseBucket available]

/-- The `Result` struct: a network annotated with its relative error
against the target. -/
structure Result where
  R : ℚ
  error : ℚ
  n : ℕ
  parts : List ℚ
deriving DecidableEq

/-- Conversion of a stored network into a result entry (lines 570–580):
`error = |R − target| / target`, other fields copied. -/
def mkResult (net : Network) (target : ℚ) : Result :=
  { R := net.R
    error := |net.R - target| / target
    n := net.n
    parts := net.parts }

/-- The collection loop at lines 566–583: flatten buckets 1..MAX_N in
order, retaining networks whose relative error is within `tol`, capped at
`MAX_NETWORKS` result entries. -/
def collectResults (buckets : List (List Network)) (target tol : ℚ) : List Result :=
  (List.range' 1 MAX_N).foldl
    (fun acc n =>
      (buckets.getD n []).foldl
        (fun acc2 net =>
          if |net.R - target| / target ≤ tol ∧ acc2.length < MAX_NETWORKS then
            acc2 ++ [mkResult net target]
          else acc2)
        acc)
    []

/-- The ordering tested by `compare_results` (lines 60–68): ascending
relative error, ties broken by ascending resistor count.  `compare_results
ra rb ≤ 0` holds exactly when this relation holds. -/
def resultLE (r1 r2 : Result) : Bool :=
  decide (r1.error < r2.error ∨ (r1.error = r2.error ∧ r1.n ≤ r2.n))

/-- The `qsort(results, num_results, sizeof(Result), compare_results)`
call at line 587, modelled as sorting by the comparator's order. -/
def rankResults (rs : List Result) : List Result :=
  rs.mergeSort resultLE

/-- The full filter-and-rank pipeline for already-collected resistor
values: build all buckets, collect entries within `tolPerc/100`, sort. -/
def rankedResults (available : List ℚ) (target tolPerc : ℚ) : List Result :=
  rankResults (collectResults (buildAll available) target (tolPerc / 100))

/-- C character classification `isspace` (default locale), used for the
whitespace handling of `sscanf`. -/
def cIsSpace (c : Char) : Bool :=
  c = ' ' ∨ c = '\t' ∨ c = '\n' ∨ c = '\x0b' ∨ c = '\x0c' ∨ c = '\r'

/-- Decimal value of a digit-character list. -/
def digitsToNat (ds : List Char) : ℕ :=
  ds.foldl (fun acc c => acc * 10 + (c.toNat - '0'.toNat)) 0

/-- Optional exponent part of the `%lf` number grammar: `e`/`E`, optional
sign, at least one digit; consumed only when well-formed, and returned as
the power-of-ten factor it denotes. -/
def scanExp (cs : List Char) : ℚ × List Char :=
  match cs with
  | c :: rest =>
    if c = 'e' ∨ c = 'E' then
      let signAndRest : ℤ × List Char :=
        match rest with
        | '+' :: r => (1, r)
        | '-' :: r => (-1, r)
        | _ => (1, rest)
      let eds := signAndRest.2.takeWhile Char.isDigit
      if eds.isEmpty then (1, cs)
      else ((10 : ℚ) ^ (signAndRest.1 * (digitsToNat eds : ℤ)),
            signAndRest.2.dropWhile Char.isDigit)
    else (1, cs)
  | [] => (1, cs)

/-- The `sscanf(label, "%lf…")` number conversion: skip leading
whitespace, optional sign, digits with an optional fractional part and an
optional exponent; fails (`none`) when no digit is present.  The model
covers the decimal grammar of `strtod` (hexadecimal / infinity / NaN forms
never occur in resistor labels and are not modelled), with
longest-valid-prefix semantics. -/
def scanFloat (cs : List Char) : Option (ℚ × List Char) :=
  let cs1 := cs.dropWhile cIsSpace
  let signAndRest : ℚ × List Char :=
    match cs1 with
    | '+' :: rest => (1, rest)
    | '-' :: rest => (-1, rest)
    | _ => (1, cs1)
  let intDigits := signAndRest.2.takeWhile Char.isDigit
  let cs3 := signAndRest.2.dropWhile Char.isDigit
  let fracAndRest : List Char × List Char :=
    match cs3 with
    | '.' :: rest => (rest.takeWhile Char.isDigit, rest.dropWhile Char.isDigit)
    | _ => ([], cs3)
  if intDigits.isEmpty ∧ fracAndRest.1.isEmpty then none
  else
    let mantissa : ℚ :=
      (digitsToNat intDigits : ℚ) +
        (digitsToNat fracAndRest.1 : ℚ) / (10 : ℚ) ^ fracAndRest.1.length
    let expAndRest := scanExp fracAndRest.2
    some (signAndRest.1 * mantissa * expAndRest.1, expAndRest.2)

/-- The `%9s` conversion applied after the number: skip whitespace, then
read at most 9 non-whitespace characters. -/
def scanSuffix (cs : List Char) : List Char :=
  ((cs.dropWhile cIsSpace).takeWhile fun c => ¬cIsSpace c).take 9

/-- `parse_resistor_value` (lines 383–395): `sscanf(label, "%lf%9s")`,
then ×1000 when the suffix contains `K`/`k`, else ×1000000 when it
contains `M`/`m`.  `value` is initialised to `0`, so a label with no
leading number returns `0`. -/
def parse_resistor_value (label : String) : ℚ :=
  match scanFloat label.toList with
  | none => 0
  | some vr =>
    let suffix := scanSuffix vr.2
    if suffix.contains 'K' ∨ suffix.contains 'k' then vr.1 * 1000
    else if suffix.contains 'M' ∨ suffix.contains 'm' then vr.1 * 1000000
    else vr.1

/-- The slice of a GTK grid child that `on_calculate_clicked` reads: the
`GTK_IS_CHECK_BUTTON` test, the toggle state and the button label. -/
structure ChildWidget where
  checkButton : Bool
  active : Bool
  label : String

/-- The collection loop at lines 429–439: walk the children, parse the
label of every active check button, and stop as soon as 100 values have
been gathered (`if (numAvail >= 100) break;` after the post-increment
store). -/
def collectAvailableAux : List ChildWidget → List ℚ → List ℚ
  | [], acc => acc
  | w :: rest, acc =>
    if w.checkButton then
      if w.active then
        let acc1 := acc ++ [parse_resistor_value w.label]
        if 100 ≤ acc1.length then acc1
        else collectAvailableAux rest acc1
      else collectAvailableAux rest acc
    else collectAvailableAux rest acc

/-- The available-value array gathered from the resistor grid. -/
def collectAvailable (children : List ChildWidget) : List ℚ :=
  collectAvailableAux children []

/-- Outcome of a Calculate click: either a blocking message written into
the output text view, or the ranked result list. -/
inductive CalcOutcome where
  | uiError (msg : String)
  | results (rs : List Result)
deriving DecidableEq

/-- `on_calculate_clicked` (lines 405–694) up to its computation of the
ranked results: gather available values, validate the target (lines
442–450), validate non-emptiness (lines 452–456), then enumerate, filter
and rank.  `target` and `tolPerc` stand for the already-converted `atof`
values of the corresponding text inputs. -/
def on_calculate_clicked (children : List ChildWidget) (target tolPerc : ℚ) :
    CalcOutcome :=
  let available := collectAvailable children
  if target ≤ 0 then
    .uiError "Error: Target resistance must be greater than 0"
  else if available.length = 0 then
    .uiError "Error: Select at least one resistor value"
  else
    .results (rankedResults available target tolPerc)

/-- `color_names` (lines 76–79): digit-to-colour table. -/
def color_names : List String :=
  ["Black", "Brown", "Red", "Orange", "Yellow",
   "Green", "Blue", "Violet", "Grey", "White"]

/-- `multiplier_colors` (lines 89–100): multiplier-exponent colour table. -/
def multiplier_colors : List String :=
  ["Black", "Brown", "Red", "Orange", "Yellow",
   "Green", "Blue", "Violet", "Grey", "White"]

/-- Fuelled helper computing `Nat.log 10` by repeated division, as the
kernel-evaluable counterpart of `(int)floor(log10(ohms))` for values
`≥ 1`. -/
def natLog10Aux : ℕ → ℕ → ℕ
  | 0, _ => 0
  | fuel + 1, n => if n < 10 then 0 else natLog10Aux fuel (n / 10) + 1

/-- Number of decimal digits minus one of a positive natural. -/
def natLog10 (n : ℕ) : ℕ :=
  natLog10Aux n n

/-- Fuelled ceiling log base 10: least `e` with `n ≤ 10 ^ e`. -/
def natClog10Aux : ℕ → ℕ → ℕ
  | 0, _ => 0
  | fuel + 1, n => if n ≤ 1 then 0 else natClog10Aux fuel ((n + 9) / 10) + 1

/-- Ceiling log base 10 of a positive natural. -/
def natClog10 (n : ℕ) : ℕ :=
  natClog10Aux n n

/-- `(int)floor(log10(q))` for positive rationals: for `q ≥ 1` the digit
count of `⌊q⌋`; for `0 < q < 1` the negated ceiling log of `⌈1/q⌉`. -/
def floorLog10 (q : ℚ) : ℤ :=
  if 1 ≤ q then (natLog10 ⌊q⌋.toNat : ℤ)
  else -(natClog10 ⌈q⁻¹⌉.toNat : ℤ)

/-- C `round` for the non-negative values produced by the normalisation:
round half away from zero, i.e. `⌊q + 1/2⌋`. -/
def roundQ (q : ℚ) : ℤ :=
  ⌊q + 1 / 2⌋

/-- `get_4band_code` (lines 215–254): normalise to 2 significant digits
with the multiplier exponent clamped to `[0, 9]`, fix up the rounding
edge cases, re-clamp, then emit digit-digit-multiplier-Gold. -/
def get_4band_code (ohms : ℚ) : String :=
  if ohms ≤ 0 then "(invalid)"
  else
    let e0 : ℤ := floorLog10 ohms - 1
    let e1 : ℤ := if e0 < 0 then 0 else e0
    let e2 : ℤ := if 9 < e1 then 9 else e1
    let sig0 : ℤ := roundQ (ohms / (10 : ℚ) ^ e2)
    let p1 : ℤ × ℤ := if 100 ≤ sig0 then (sig0 / 10, e2 + 1) else (sig0, e2)
    let p2 : ℤ × ℤ := if p1.1 < 10 then (p1.1 * 10, p1.2 - 1) else p1
    let e3 : ℤ := if p2.2 < 0 then 0 else p2.2
    let e4 : ℤ := if 9 < e3 then 9 else e3
    color_names.getD (p2.1 / 10).toNat "" ++ "-" ++
      color_names.getD (p2.1 % 10).toNat "" ++ "-" ++
      multiplier_colors.getD e4.toNat "" ++ "-Gold"

/-- `get_5band_code` (lines 261–302): normalise to 3 significant digits,
same clamping and fix-ups, emit digit-digit-digit-multiplier-Brown. -/
def get_5band_code (ohms : ℚ) : String :=
  if ohms ≤ 0 then "(invalid)"
  else
    let e0 : ℤ := floorLog10 ohms - 2
    let e1 : ℤ := if e0 < 0 then 0 else e0
    let e2 : ℤ := if 9 < e1 then 9 else e1
    let sig0 : ℤ := roundQ (ohms / (10 : ℚ) ^ e2)
    let p1 : ℤ × ℤ := if 1000 ≤ sig0 then (sig0 / 10, e2 + 1) else (sig0, e2)
    let p2 : ℤ × ℤ := if p1.1 < 100 then (p1.1 * 10, p1.2 - 1) else p1
    let e3 : ℤ := if p2.2 < 0 then 0 else p2.2
    let e4 : ℤ := if 9 < e3 then 9 else e3
    color_names.getD (p2.1 / 100).toNat "" ++ "-" ++
      color_names.getD ((p2.1 / 10) % 10).toNat "" ++ "-" ++
      color_names.getD (p2.1 % 10).toNat "" ++ "-" ++
      multiplier_colors.getD e4.toNat "" ++ "-Brown"

/-- `get_smd_code` (lines 309–341): R-notation below 10 Ω, else the
2-significant-digit normalisation printed as `{sig}{exp10}` via `%d%d`. -/
def get_smd_code (ohms : ℚ) : String :=
  if ohms ≤ 0 then "(invalid)"
  else if ohms < 10 then
    let whole : ℤ := ⌊ohms⌋
    let frac : ℤ := roundQ ((ohms - whole) * 10) % 10
    toString whole ++ "R" ++ toString frac
  else
    let e0 : ℤ := floorLog10 ohms - 1
    let e1 : ℤ := if e0 < 0 then 0 else e0
    let e2 : ℤ := if 9 < e1 then 9 else e1
    let sig0 : ℤ := roundQ (ohms / (10 : ℚ) ^ e2)
    let p1 : ℤ × ℤ := if 100 ≤ sig0 then (sig0 / 10, e2 + 1) else (sig0, e2)
    let p2 : ℤ × ℤ := if p1.1 < 10 then (p1.1 * 10, p1.2 - 1) else p1
    let e3 : ℤ := if p2.2 < 0 then 0 else p2.2
    toString p2.1 ++ toString e3

/-- `MAX_R2R_BITS` from resistor.c. -/
def MAX_R2R_BITS : ℕ := 24

/-- `vref` defaulting in `on_r2r_generate_clicked` (line 789):
non-positive entries fall back to 5.0 V. -/
def r2r_vref (vrefInput : ℚ) : ℚ :=
  if vrefInput ≤ 0 then 5 else vrefInput

/-- `r_count = bits - 1` (line 792). -/
def r2r_r_count (bits : ℕ) : ℕ :=
  bits - 1

/-- `r2_count = bits + 1` (line 793). -/
def r2r_r2_count (bits : ℕ) : ℕ :=
  bits + 1

/-- `max_val = pow(2, bits)` (line 796). -/
def r2r_max_val (bits : ℕ) : ℚ :=
  2 ^ bits

/-- `lsb = vref / max_val` (line 797). -/
def r2r_lsb (bits : ℕ) (vref : ℚ) : ℚ :=
  vref / r2r_max_val bits

/-- `voltage = vref * d / max_val` (line 878). -/
def r2r_voltage (bits : ℕ) (vref : ℚ) (d : ℕ) : ℚ :=
  vref * d / r2r_max_val bits

/-- Number of rows of the sample voltage table (line 865): exhaustive for
up to 4 bits, 16 evenly spaced samples otherwise. -/
def r2r_num_samples (bits : ℕ) : ℕ :=
  if bits ≤ 4 then 2 ^ bits else 16

/-- The digital code shown in row `i` of the sample table (lines
871–876): `i` itself for small bit depths, else `i * (max_val - 1) / 15`
in integer arithmetic. -/
def r2r_sample_code (bits i : ℕ) : ℕ :=
  if bits ≤ 4 then i else i * (2 ^ bits - 1) / 15

lemma mem_addNetwork {acc : List Network} {x y : Network}
    (h : y ∈ addNetwork acc x) : y ∈ acc ∨ y = x := by
  unfold addNetwork at h
  split at h
  · rcases List.mem_append.1 h with h1 | h1
    · exact Or.inl h1
    · exact Or.inr (List.mem_singleton.1 h1)
  · exact Or.inl h

lemma addNetwork_length_le {acc : List Network} {x : Network}
    (h : acc.length ≤ MAX_NETWORKS) :
    (addNetwork acc x).length ≤ MAX_NETWORKS := by
  unfold addNetwork
  split
  · simp only [List.length_append, List.length_singleton]
    omega
  · exact h

lemma addNetwork_of_full {acc : List Network} {x : Network}
    (h : MAX_NETWORKS ≤ acc.length) : addNetwork acc x = acc := by
  unfold addNetwork
  rw [if_neg]
  omega

lemma mem_combineStep {acc : List Network} {a b x : Network}
    (h : x ∈ combineStep acc a b) :
    x ∈ acc ∨ x = mkSeries a b ∨ (x = mkParallel a b ∧ 0 < a.R ∧ 0 < b.R) := by
  unfold combineStep at h
  split at h
  case isTrue hpos =>
    rcases mem_addNetwork h with h1 | h1
    · rcases mem_addNetwork h1 with h2 | h2
      · exact Or.inl h2
      · exact Or.inr (Or.inl h2)
    · exact Or.inr (Or.inr ⟨h1, hpos⟩)
  case isFalse =>
    rcases mem_addNetwork h with h1 | h1
    · exact Or.inl h1
    · exact Or.inr (Or.inl h1)

lemma combineStep_length_le {acc : List Network} {a b : Network}
    (h : acc.length ≤ MAX_NETWORKS) :
    (combineStep acc a b).length ≤ MAX_NETWORKS := by
  unfold combineStep
  split
  · exact addNetwork_length_le (addNetwork_length_le h)
  · exact addNetwork_length_le h

lemma mem_pairIdxList {li lj : ℕ} {same : Bool} {a b : ℕ}
    (h : (a, b) ∈ pairIdxList li lj same) :
    a < li ∧ b < lj ∧ (same = true → a ≤ b) := by
  unfold pairIdxList at h
  simp only [List.mem_flatMap, List.mem_map, List.mem_range, Prod.mk.injEq] at h
  obtain ⟨a', ha', b', hb', heq1, heq2⟩ := h
  subst heq1
  subst heq2
  rw [List.mem_range'_1] at hb'
  cases same with
  | false =>
    rw [if_neg Bool.false_ne_true] at hb'
    exact ⟨ha', by omega, by simp⟩
  | true =>
    rw [if_pos rfl] at hb'
    exact ⟨ha', by omega, fun _ => by omega⟩

lemma mem_pairNetworks {bi bj : List Network} {same : Bool}
    {pq : Network × Network} (h : pq ∈ pairNetworks bi bj same) :
    pq.1 ∈ bi ∧ pq.2 ∈ bj := by
  unfold pairNetworks at h
  simp only [List.mem_map] at h
  obtain ⟨⟨a, b⟩, hab, heq⟩ := h
  obtain ⟨ha, hb, -⟩ := mem_pairIdxList hab
  subst heq
  constructor
  · rw [List.getD_eq_getElem _ _ ha]
    exact List.getElem_mem ha
  · rw [List.getD_eq_getElem _ _ hb]
    exact List.getElem_mem hb

lemma foldl_combine_mem {pairs : List (Network × Network)}
    {acc : List Network} {x : Network}
    (h : x ∈ pairs.foldl (fun acc2 ab => combineStep acc2 ab.1 ab.2) acc) :
    x ∈ acc ∨ ∃ p ∈ pairs,
      x = mkSeries p.1 p.2 ∨ (x = mkParallel p.1 p.2 ∧ 0 < p.1.R ∧ 0 < p.2.R) := by
  induction pairs generalizing acc with
  | nil => exact Or.inl h
  | cons hd tl ih =>
    rw [List.foldl_cons] at h
    rcases ih h with h1 | ⟨p, hp, hcase⟩
    · rcases mem_combineStep h1 with h2 | h2 | h2
      · exact Or.inl h2
      · exact Or.inr ⟨hd, List.mem_cons_self _ _, Or.inl h2⟩
      · exact Or.inr ⟨hd, List.mem_cons_self _ _, Or.inr h2⟩
    · exact Or.inr ⟨p, List.mem_cons_of_mem _ hp, hcase⟩

lemma foldl_combine_length {pairs : List (Network × Network)}
    {acc : List Network} (h : acc.length ≤ MAX_NETWORKS) :
    (pairs.foldl (fun acc2 ab => combineStep acc2 ab.1 ab.2) acc).length ≤
      MAX_NETWORKS := by
  induction pairs generalizing acc with
  | nil => exact h
  | cons hd tl ih => exact ih (combineStep_length_le h)

lemma buildBucket_mem {buckets : List (List Network)} {n : ℕ} {x : Network}
    (h : x ∈ buildBucket buckets n) :
    ∃ i, 1 ≤ i ∧ i < n ∧ ∃ p ∈ buckets.getD i [], ∃ q ∈ buckets.getD (n - i) [],
      x = mkSeries p q ∨ (x = mkParallel p q ∧ 0 < p.R ∧ 0 < q.R) := by
  unfold buildBucket at h
  suffices hgen : ∀ (l : List ℕ) (acc : List Network),
      (∀ i ∈ l, 1 ≤ i ∧ i < n) →
      x ∈ l.foldl (fun acc i =>
        (pairNetworks (buckets.getD i []) (buckets.getD (n - i) [])
          (i == n - i)).foldl (fun acc2 ab => combineStep acc2 ab.1 ab.2) acc)
        acc →
      x ∈ acc ∨ ∃ i, 1 ≤ i ∧ i < n ∧
        ∃ p ∈ buckets.getD i [], ∃ q ∈ buckets.getD (n - i) [],
          x = mkSeries p q ∨ (x = mkParallel p q ∧ 0 < p.R ∧ 0 < q.R) by
    have hrange : ∀ i ∈ List.range' 1 (n - 1), 1 ≤ i ∧ i < n := by
      intro i hi
      rw [List.mem_range'_1] at hi
      omega
    rcases hgen (List.range' 1 (n - 1)) [] hrange h with h1 | h1
    · simp at h1
    · exact h1
  intro l
  induction l with
  | nil => intro acc _ hx; exact Or.inl hx
  | cons hd tl ih =>
    intro acc hl hx
    rw [List.foldl_cons] at hx
    rcases ih _ (fun i hi => hl i (List.mem_cons_of_mem _ hi)) hx with h1 | h1
    · rcases foldl_combine_mem h1 with h2 | ⟨p, hp, hcase⟩
      · exact Or.inl h2
      · obtain ⟨hp1, hp2⟩ := mem_pairNetworks hp
        obtain ⟨hhd1, hhd2⟩ := hl hd (List.mem_cons_self _ _)
        exact Or.inr ⟨hd, hhd1, hhd2, p.1, hp1, p.2, hp2, by
          rcases hcase with h3 | h3
          · exact Or.inl h3
          · exact Or.inr h3⟩
    · exact Or.inr h1

lemma buildBucket_length {buckets : List (List Network)} {n : ℕ} :
    (buildBucket buckets n).length ≤ MAX_NETWORKS := by
  unfold buildBucket
  suffices hgen : ∀ (l : List ℕ) (acc : List Network),
      acc.length ≤ MAX_NETWORKS →
      (l.foldl (fun acc i =>
        (pairNetworks (buckets.getD i []) (buckets.getD (n - i) [])
          (i == n - i)).foldl (fun acc2 ab => combineStep acc2 ab.1 ab.2) acc)
        acc).length ≤ MAX_NETWORKS by
    exact hgen _ [] (by simp [MAX_NETWORKS])
  intro l
  induction l with
  | nil => intro acc h; exact h
  | cons hd tl ih => intro acc h; exact ih _ (foldl_combine_length h)

lemma mem_baseBucket {available : List ℚ} {x : Network}
    (h : x ∈ baseBucket available) : ∃ v ∈ available, x = singleNetwork v := by
  unfold baseBucket at h
  suffices hgen : ∀ (l : List ℚ) (acc : List Network),
      x ∈ l.foldl (fun acc v => addNetwork acc (singleNetwork v)) acc →
      x ∈ acc ∨ ∃ v ∈ l, x = singleNetwork v by
    rcases hgen available [] h with h1 | h1
    · simp at h1
    · exact h1
  intro l
  induction l with
  | nil => intro acc hx; exact Or.inl hx
  | cons hd tl ih =>
    intro acc hx
    rw [List.foldl_cons] at hx
    rcases ih _ hx with h1 | ⟨v, hv, heq⟩
    · rcases mem_addNetwork h1 with h2 | h2
      · exact Or.inl h2
      · exact Or.inr ⟨hd, List.mem_cons_self _ _, h2⟩
    · exact Or.inr ⟨v, List.mem_cons_of_mem _ hv, heq⟩

lemma baseBucket_length {available : List ℚ} :
    (baseBucket available).length ≤ MAX_NETWORKS := by
  unfold baseBucket
  suffices hgen : ∀ (l : List ℚ) (acc : List Network),
      acc.length ≤ MAX_NETWORKS →
      (l.foldl (fun acc v => addNetwork acc (singleNetwork v)) acc).length ≤
        MAX_NETWORKS by
    exact hgen _ [] (by simp [MAX_NETWORKS])
  intro l
  induction l with
  | nil => intro acc h; exact h
  | cons hd tl ih => intro acc h; exact ih _ (addNetwork_length_le h)

/-- The per-bucket invariant of claim C5: exact component count, tracked
parts bounded by `min k 8`. -/
def netInv (k : ℕ) (net : Network) : Prop :=
  net.n = k ∧ net.parts.length ≤ min k MAX_RESISTORS_PER_NET

lemma netInv_mkSeries {i j : ℕ} {a b : Network}
    (ha : netInv i a) (hb : netInv j b) : netInv (i + j) (mkSeries a b) := by
  obtain ⟨ha1, ha2⟩ := ha
  obtain ⟨hb1, hb2⟩ := hb
  constructor
  · simp [mkSeries, ha1, hb1]
  · simp only [mkSeries, List.length_take, List.length_append]
    have h8 : MAX_RESISTORS_PER_NET = 8 := rfl
    omega

lemma netInv_mkParallel {i j : ℕ} {a b : Network}
    (ha : netInv i a) (hb : netInv j b) : netInv (i + j) (mkParallel a b) := by
  obtain ⟨ha1, ha2⟩ := ha
  obtain ⟨hb1, hb2⟩ := hb
  constructor
  · simp [mkParallel, ha1, hb1]
  · simp only [mkParallel, List.length_take, List.length_append]
    have h8 : MAX_RESISTORS_PER_NET = 8 := rfl
    omega

lemma buildBucket_inv {buckets : List (List Network)} {n : ℕ}
    (hb : ∀ k, ∀ net ∈ buckets.getD k [], netInv k net) :
    ∀ x ∈ buildBucket buckets n, netInv n x := by
  intro x hx
  obtain ⟨i, hi1, hi2, p, hp, q, hq, hcase⟩ := buildBucket_mem hx
  have hip : netInv i p := hb i p hp
  have hjq : netInv (n - i) q := hb (n - i) q hq
  have hsum : i + (n - i) = n := by omega
  rcases hcase with h1 | ⟨h1, -, -⟩ <;> subst h1
  · exact hsum ▸ netInv_mkSeries hip hjq
  · exact hsum ▸ netInv_mkParallel hip hjq

/-- Combined bucket invariant carried through the `buildAll` fold. -/
def bucketsInv (bs : List (List Network)) : Prop :=
  ∀ k, (bs.getD k []).length ≤ MAX_NETWORKS ∧
    ∀ net ∈ bs.getD k [], netInv k net

lemma bucketsInv_append {bs : List (List Network)}
    (h : bucketsInv bs) : bucketsInv (bs ++ [buildBucket bs bs.length]) := by
  intro k
  rcases lt_trichotomy k bs.length with hk | hk | hk
  · rw [List.getD_eq_getElem?_getD, List.getElem?_append_left hk,
      ← List.getD_eq_getElem?_getD]
    exact h k
  · subst hk
    rw [List.getD_eq_getElem?_getD, List.getElem?_append_right le_rfl]
    simp only [Nat.sub_self, List.getElem?_cons_zero, Option.getD_some]
    exact ⟨buildBucket_length, buildBucket_inv fun j net hnet => (h j).2 net hnet⟩
  · rw [List.getD_eq_getElem?_getD, List.getElem?_eq_none]
    · simp [MAX_NETWORKS]
    · simp only [List.length_append, List.length_singleton]
      omega

lemma buildAll_fold_inv (m : ℕ) :
    ∀ (bs : List (List Network)), bucketsInv bs →
      bucketsInv ((List.range' bs.length m).foldl
        (fun bs' n => bs' ++ [buildBucket bs' n]) bs) := by
  induction m with
  | zero => intro bs h; simpa using h
  | succ m ih =>
    intro bs h
    rw [List.range'_succ, List.foldl_cons]
    have hlen : (bs ++ [buildBucket bs bs.length]).length = bs.length + 1 := by
      simp
    have := ih (bs ++ [buildBucket bs bs.length]) (bucketsInv_append h)
    rwa [hlen] at this

lemma bucketsInv_init {available : List ℚ} :
    bucketsInv [[], baseBucket available] := by
  intro k
  match k with
  | 0 => exact ⟨by simp [MAX_NETWORKS], by simp⟩
  | 1 =>
    refine ⟨baseBucket_length, ?_⟩
    intro net hnet
    obtain ⟨v, -, heq⟩ := mem_baseBucket hnet
    subst heq
    exact ⟨rfl, by simp [singleNetwork, MAX_RESISTORS_PER_NET]⟩
  | (n + 2) => exact ⟨by simp [MAX_NETWORKS], by simp⟩

lemma buildAll_inv {available : List ℚ} : bucketsInv (buildAll available) := by
  unfold buildAll
  have h2 : ([[], baseBucket available] : List (List Network)).length = 2 := by
    simp
  have := buildAll_fold_inv (MAX_N - 1) [[], baseBucket available] bucketsInv_init
  rwa [h2] at this

lemma mem_collect_inner {target tol : ℚ} :
    ∀ (l : List Network) (acc : List Result),
      (∀ r ∈ acc, r.error = |r.R - target| / target ∧ r.error ≤ tol) →
      ∀ r ∈ l.foldl (fun acc2 net =>
          if |net.R - target| / target ≤ tol ∧ acc2.length < MAX_NETWORKS then
            acc2 ++ [mkResult net target]
          else acc2) acc,
        r.error = |r.R - target| / target ∧ r.error ≤ tol := by
  intro l
  induction l with
  | nil => intro acc hacc r hr; exact hacc r hr
  | cons net tl ih =>
    intro acc hacc r hr
    rw [List.foldl_cons] at hr
    refine ih _ ?_ r hr
    intro r' hr'
    split at hr'
    case isTrue hcond =>
      rcases List.mem_append.1 hr' with h1 | h1
      · exact hacc r' h1
      · rw [List.mem_singleton] at h1
        subst h1
        exact ⟨rfl, hcond.1⟩
    case isFalse => exact hacc r' hr'

lemma mem_collectResults {buckets : List (List Network)} {target tol : ℚ}
    {r : Result} (h : r ∈ collectResults buckets target tol) :
    r.error = |r.R - target| / target ∧ r.error ≤ tol := by
  unfold collectResults at h
  suffices hgen : ∀ (l : List ℕ) (acc : List Result),
      (∀ r' ∈ acc, r'.error = |r'.R - target| / target ∧ r'.error ≤ tol) →
      ∀ r' ∈ l.foldl (fun acc n =>
          (buckets.getD n []).foldl (fun acc2 net =>
            if |net.R - target| / target ≤ tol ∧ acc2.length < MAX_NETWORKS then
              acc2 ++ [mkResult net target]
            else acc2) acc) acc,
        r'.error = |r'.R - target| / target ∧ r'.error ≤ tol by
    exact hgen _ [] (by simp) r h
  intro l
  induction l with
  | nil => intro acc hacc r' hr'; exact hacc r' hr'
  | cons n tl ih =>
    intro acc hacc r' hr'
    rw [List.foldl_cons] at hr'
    exact ih _ (fun r'' hr'' => mem_collect_inner _ _ hacc r'' hr'') r' hr'

lemma resultLE_trans :
    ∀ a b c : Result, resultLE a b = true → resultLE b c = true →
      resultLE a c = true := by
  intro a b c hab hbc
  simp only [resultLE, decide_eq_true_eq] at hab hbc ⊢
  rcases hab with h1 | ⟨h1, h2⟩ <;> rcases hbc with h3 | ⟨h3, h4⟩
  · exact Or.inl (lt_trans h1 h3)
  · exact Or.inl (lt_of_lt_of_le h1 (le_of_eq h3))
  · exact Or.inl (lt_of_le_of_lt (le_of_eq h1) h3)
  · exact Or.inr ⟨h1.trans h3, le_trans h2 h4⟩

lemma resultLE_total :
    ∀ a b : Result, (resultLE a b || resultLE b a) = true := by
  intro a b
  simp only [resultLE, Bool.or_eq_true, decide_eq_true_eq]
  rcases lt_trichotomy a.error b.error with h | h | h
  · exact Or.inl (Or.inl h)
  · rcases Nat.le_total a.n b.n with hn | hn
    · exact Or.inl (Or.inr ⟨h, hn⟩)
    · exact Or.inr (Or.inr ⟨h.symm, hn⟩)
  · exact Or.inr (Or.inl h)

lemma collectAvailableAux_eq :
    ∀ (children : List ChildWidget) (acc : List ℚ), acc.length < 100 →
      collectAvailableAux children acc =
        acc ++ ((children.filter fun w => w.checkButton && w.active).map
          fun w => parse_resistor_value w.label).take (100 - acc.length) := by
  intro children
  induction children with
  | nil => intro acc h; simp [collectAvailableAux]
  | cons w rest ih =>
    intro acc h
    unfold collectAvailableAux
    by_cases hcb : w.checkButton = true
    · rw [if_pos hcb]
      by_cases hac : w.active = true
      · rw [if_pos hac]
        rw [List.filter_cons_of_pos (by simp [hcb, hac])]
        rw [List.map_cons]
        by_cases h100 : 100 ≤ (acc ++ [parse_resistor_value w.label]).length
        · rw [if_pos h100]
          simp only [List.length_append, List.length_singleton] at h100
          have hlen : 100 - acc.length = 1 := by omega
          rw [hlen, List.take_succ_cons, List.take_zero]
        · rw [if_neg h100]
          simp only [List.length_append, List.length_singleton] at h100
          rw [ih _ (by simp only [List.length_append, List.length_singleton]; omega)]
          have hlen : 100 - acc.length = (100 - (acc.length + 1)) + 1 := by omega
          rw [hlen, List.take_succ_cons]
          simp
      · rw [if_neg hac, List.filter_cons_of_neg (by simp [hac])]
        exact ih acc h
    · rw [if_neg hcb, List.filter_cons_of_neg (by simp [hcb])]
      exact ih acc h

/-- C1: during enumeration, the emitted series network has equivalent
resistance exactly `A.R + B.R`; when both sub-resistances are strictly
positive the emitted parallel network has equivalent resistance exactly
`1/(1/A.R + 1/B.R)`; and every network the inner loop body adds is either
the series combination or — only under the strict-positivity guard — the
parallel combination, so a parallel network is emitted only when both
sub-resistances are strictly positive. -/
theorem claim_C1 (a b : Network) (acc : List Network) :
    (mkSeries a b).R = a.R + b.R ∧
    (0 < a.R → 0 < b.R → (mkParallel a b).R = 1 / (1 / a.R + 1 / b.R)) ∧
    (∀ x ∈ combineStep acc a b,
      x ∈ acc ∨ x = mkSeries a b ∨
        (x = mkParallel a b ∧ 0 < a.R ∧ 0 < b.R)) :=
  ⟨rfl, fun _ _ => rfl, fun _ hx => mem_combineStep hx⟩

/-- Witness for C1 at the sub-networks 2 Ω and 3 Ω with an empty bucket. -/
theorem claim_C1_witness :
    (0 : ℚ) < (⟨2, 1, [2]⟩ : Network).R ∧
    (0 : ℚ) < (⟨3, 1, [3]⟩ : Network).R ∧
    mkSeries ⟨2, 1, [2]⟩ ⟨3, 1, [3]⟩ ∈
      combineStep [] ⟨2, 1, [2]⟩ ⟨3, 1, [3]⟩ ∧
    (mkSeries (⟨2, 1, [2]⟩ : Network) ⟨3, 1, [3]⟩).R = 2 + 3 ∧
    (mkParallel (⟨2, 1, [2]⟩ : Network) ⟨3, 1, [3]⟩).R =
      1 / (1 / 2 + 1 / 3) ∧
    (mkSeries (⟨2, 1, [2]⟩ : Network) ⟨3, 1, [3]⟩ ∈ ([] : List Network) ∨
      mkSeries (⟨2, 1, [2]⟩ : Network) ⟨3, 1, [3]⟩ =
        mkSeries ⟨2, 1, [2]⟩ ⟨3, 1, [3]⟩ ∨
      (mkSeries (⟨2, 1, [2]⟩ : Network) ⟨3, 1, [3]⟩ =
        mkParallel ⟨2, 1, [2]⟩ ⟨3, 1, [3]⟩ ∧ (0 : ℚ) < 2 ∧ (0 : ℚ) < 3)) :=
  ⟨by decide, by decide, List.Mem.head _,
    (claim_C1 ⟨2, 1, [2]⟩ ⟨3, 1, [3]⟩ []).1,
    (claim_C1 ⟨2, 1, [2]⟩ ⟨3, 1, [3]⟩ []).2.1 (by decide) (by decide),
    (claim_C1 ⟨2, 1, [2]⟩ ⟨3, 1, [3]⟩ []).2.2 _ (List.Mem.head _)⟩

/-- C2: for target > 0 every entry of the ranked result list carries
relative error `|resistance − target| / target`, and that error is at most
`tolPerc/100` — a network outside tolerance never appears. -/
theorem claim_C2 (available : List ℚ) (target tolPerc : ℚ)
    (htarget : 0 < target) :
    ∀ r ∈ rankedResults available target tolPerc,
      r.error = |r.R - target| / target ∧ r.error ≤ tolPerc / 100 := by
  intro r hr
  have hmem : r ∈ collectResults (buildAll available) target (tolPerc / 100) :=
    (List.mergeSort_perm _ resultLE).mem_iff.1 hr
  exact mem_collectResults hmem

/-- Witness for C2: target 100 Ω, 5 % tolerance, one available value. -/
theorem claim_C2_witness :
    (0 : ℚ) < 100 ∧
    ∀ r ∈ rankedResults [100] 100 5,
      r.error = |r.R - 100| / 100 ∧ r.error ≤ 5 / 100 :=
  ⟨by decide, claim_C2 [100] 100 5 (by decide)⟩

/-- C3: the ranked list is sorted — consecutive entries have
non-decreasing relative error, and entries of equal error appear in
ascending component count. -/
theorem claim_C3 (available : List ℚ) (target tolPerc : ℚ) :
    (rankedResults available target tolPerc).Chain'
      (fun r1 r2 => r1.error ≤ r2.error ∧
        (r1.error = r2.error → r1.n ≤ r2.n)) := by
  have hp := List.sorted_mergeSort resultLE_trans resultLE_total
    (collectResults (buildAll available) target (tolPerc / 100))
  have hp2 : (rankedResults available target tolPerc).Pairwise
      (fun r1 r2 => r1.error ≤ r2.error ∧
        (r1.error = r2.error → r1.n ≤ r2.n)) := by
    refine hp.imp ?_
    intro a b hab
    rw [resultLE, decide_eq_true_eq] at hab
    rcases hab with h1 | ⟨h1, h2⟩
    · exact ⟨le_of_lt h1, fun he => absurd (he ▸ h1) (lt_irrefl _)⟩
    · exact ⟨le_of_eq h1, fun _ => h2⟩
  exact hp2.chain'

/-- C4: in an `i == j` split the loops only pair index `a` with indices
`b ≥ a` inside the bucket, so the same unordered pair is never enumerated
in both orders. -/
theorem claim_C4 (len a b : ℕ) (h : (a, b) ∈ pairIdxList len len true) :
    a ≤ b ∧ (a ≠ b → (b, a) ∉ pairIdxList len len true) := by
  have h1 := mem_pairIdxList h
  refine ⟨h1.2.2 rfl, fun hne hmem => ?_⟩
  have h2 := mem_pairIdxList hmem
  have hab : a ≤ b := h1.2.2 rfl
  have hba : b ≤ a := h2.2.2 rfl
  omega

/-- Witness for C4 on a bucket of three networks. -/
theorem claim_C4_witness :
    ((1, 2) ∈ pairIdxList 3 3 true) ∧ 1 ≤ 2 ∧
    ((1 : ℕ) ≠ 2 → ((2, 1) ∉ pairIdxList 3 3 true)) :=
  ⟨by decide, (claim_C4 3 1 2 (by decide)).1, (claim_C4 3 1 2 (by decide)).2⟩

/-- C5: every bucket `k` (1 ≤ k ≤ MAX_N) holds at most MAX_NETWORKS
networks; every stored network has component count exactly `k` and at most
`min k 8` tracked parts; and a candidate arriving at a full bucket is
silently discarded. -/
theorem claim_C5 (available : List ℚ) (k : ℕ) (h1 : 1 ≤ k)
    (h2 : k ≤ MAX_N) :
    ((buildAll available).getD k []).length ≤ MAX_NETWORKS ∧
    (∀ net ∈ (buildAll available).getD k [],
      net.n = k ∧ net.parts.length ≤ min k MAX_RESISTORS_PER_NET) ∧
    (∀ (bucket : List Network) (x : Network),
      MAX_NETWORKS ≤ bucket.length → addNetwork bucket x = bucket) :=
  ⟨(buildAll_inv k).1, fun net hnet => (buildAll_inv k).2 net hnet,
    fun _ _ hfull => addNetwork_of_full hfull⟩

/-- Witness for C5 at bucket 1 of a single available value. -/
theorem claim_C5_witness :
    1 ≤ 1 ∧ 1 ≤ MAX_N ∧
    (((buildAll [100]).getD 1 []).length ≤ MAX_NETWORKS ∧
    (∀ net ∈ (buildAll [100]).getD 1 [],
      net.n = 1 ∧ net.parts.length ≤ min 1 MAX_RESISTORS_PER_NET) ∧
    (∀ (bucket : List Network) (x : Network),
      MAX_NETWORKS ≤ bucket.length → addNetwork bucket x = bucket)) :=
  ⟨by decide, by decide, claim_C5 [100] 1 (by decide) (by decide)⟩

/-- C6: a non-positive target makes the Calculate handler write the
blocking error message and return before enumeration or ranking, so the
relative-error division by a non-positive target never happens. -/
theorem claim_C6 (children : List ChildWidget) (target tolPerc : ℚ)
    (h : target ≤ 0) :
    on_calculate_clicked children target tolPerc =
      .uiError "Error: Target resistance must be greater than 0" ∧
    ∀ rs, on_calculate_clicked children target tolPerc ≠ .results rs := by
  constructor
  · unfold on_calculate_clicked
    rw [if_pos h]
  · intro rs
    unfold on_calculate_clicked
    rw [if_pos h]
    simp

/-- Witness for C6 at target 0. -/
theorem claim_C6_witness :
    (0 : ℚ) ≤ 0 ∧
    on_calculate_clicked [] 0 5 =
      .uiError "Error: Target resistance must be greater than 0" ∧
    ∀ rs, on_calculate_clicked [] 0 5 ≠ .results rs :=
  ⟨by decide, (claim_C6 [] 0 5 (by decide)).1, (claim_C6 [] 0 5 (by decide)).2⟩

/-- C9: for every bit depth in 2..24 and vref > 0 the R-2R computation
yields `rCount = bits − 1`, `r2Count = bits + 1`, `lsb = vref / 2^bits`,
maps digital code `d` to `vref * d / 2^bits`, and (beyond 4 bits) the last
sample row carries the full-scale code `2^bits − 1`. -/
theorem claim_C9 (bits : ℕ) (vref : ℚ) (d : ℕ) (h2 : 2 ≤ bits)
    (h24 : bits ≤ MAX_R2R_BITS) (hv : 0 < vref) :
    r2r_r_count bits = bits - 1 ∧
    r2r_r2_count bits = bits + 1 ∧
    r2r_lsb bits vref = vref / 2 ^ bits ∧
    r2r_voltage bits vref d = vref * d / 2 ^ bits ∧
    (4 < bits → r2r_sample_code bits 15 = 2 ^ bits - 1) := by
  refine ⟨rfl, rfl, rfl, rfl, fun h4 => ?_⟩
  unfold r2r_sample_code
  rw [if_neg (by omega)]
  exact Nat.mul_div_cancel_left _ (by norm_num)

/-- Witness for C9 at the spec's sample scenario: 8 bits, vref = 5 V,
code 255. -/
theorem claim_C9_witness :
    2 ≤ 8 ∧ 8 ≤ MAX_R2R_BITS ∧ (0 : ℚ) < 5 ∧
    (r2r_r_count 8 = 8 - 1 ∧
    r2r_r2_count 8 = 8 + 1 ∧
    r2r_lsb 8 5 = 5 / 2 ^ 8 ∧
    r2r_voltage 8 5 255 = 5 * 255 / 2 ^ 8 ∧
    (4 < 8 → r2r_sample_code 8 15 = 2 ^ 8 - 1)) :=
  ⟨by decide, by decide, by decide,
    claim_C9 8 5 255 (by decide) (by decide) (by decide)⟩

/-- C10: the handler gathers at most 100 available values — exactly the
first 100 selected check-button values in order; later selections are
silently ignored and the enumeration input is that truncated list. -/
theorem claim_C10 (children : List ChildWidget) :
    collectAvailable children =
      ((children.filter fun w => w.checkButton && w.active).map
        fun w => parse_resistor_value w.label).take 100 ∧
    (collectAvailable children).length ≤ 100 := by
  have h : collectAvailable children =
      ((children.filter fun w => w.checkButton && w.active).map
        fun w => parse_resistor_value w.label).take 100 := by
    have := collectAvailableAux_eq children [] (by simp)
    simpa [collectAvailable] using this
  refine ⟨h, ?_⟩
  rw [h]
  simp [List.length_take]

/-- C7: the colour-code spot values — 4-band and 5-band codes of 4700 Ω
and the SMD codes of 4700 Ω and 4.7 Ω — are exactly as specified, under
the 2- and 3-significant-digit normalisation with the multiplier exponent
clamped to [0, 9]. -/
theorem claim_C7 :
    get_4band_code 4700 = "Yellow-Violet-Red-Gold" ∧
    get_5band_code 4700 = "Yellow-Violet-Black-Brown-Brown" ∧
    get_smd_code 4700 = "472" ∧
    get_smd_code (47 / 10) = "4R7" := by
  have hl : floorLog10 4700 = 3 := by
    unfold floorLog10
    norm_num
    decide
  refine ⟨?_, ?_, ?_, ?_⟩
  · unfold get_4band_code
    rw [if_neg (by norm_num : ¬((4700 : ℚ) ≤ 0)), hl]
    norm_num [roundQ]
    decide
  · unfold get_5band_code
    rw [if_neg (by norm_num : ¬((4700 : ℚ) ≤ 0)), hl]
    norm_num [roundQ]
    decide
  · unfold get_smd_code
    rw [if_neg (by norm_num : ¬((4700 : ℚ) ≤ 0)),
      if_neg (by norm_num : ¬((4700 : ℚ) < 10)), hl]
    norm_num [roundQ]
    decide
  · unfold get_smd_code
    rw [if_neg (by norm_num : ¬((47 / 10 : ℚ) ≤ 0)),
      if_pos (by norm_num : (47 / 10 : ℚ) < 10)]
    norm_num [roundQ]
    decide

/-- C8: `parse_resistor_value` multiplies the scanned leading number by
1000 when the (at most 9 characters of) suffix contains `K`/`k`, by
1000000 when it contains `M`/`m` (and no `K`/`k`, matching the branch
order), returns it unchanged otherwise — in particular with an empty
suffix — and yields 0 when no leading numeric token exists. -/
theorem claim_C8 (label : String) :
    (scanFloat label.toList = none → parse_resistor_value label = 0) ∧
    ∀ v rest, scanFloat label.toList = some (v, rest) →
      ((scanSuffix rest).contains 'K' ∨ (scanSuffix rest).contains 'k' →
        parse_resistor_value label = v * 1000) ∧
      (¬((scanSuffix rest).contains 'K' ∨ (scanSuffix rest).contains 'k') ∧
        ((scanSuffix rest).contains 'M' ∨ (scanSuffix rest).contains 'm') →
        parse_resistor_value label = v * 1000000) ∧
      (¬((scanSuffix rest).contains 'K' ∨ (scanSuffix rest).contains 'k') ∧
        ¬((scanSuffix rest).contains 'M' ∨ (scanSuffix rest).contains 'm') →
        parse_resistor_value label = v) := by
  constructor
  · intro h
    unfold parse_resistor_value
    rw [h]
  · intro v rest h
    have hbase : parse_resistor_value label =
        if (scanSuffix rest).contains 'K' ∨ (scanSuffix rest).contains 'k' then
          v * 1000
        else if (scanSuffix rest).contains 'M' ∨ (scanSuffix rest).contains 'm' then
          v * 1000000
        else v := by
      unfold parse_resistor_value
      rw [h]
    refine ⟨fun hk => ?_, fun hm => ?_, fun hn => ?_⟩
    · rw [hbase, if_pos hk]
    · rw [hbase, if_neg hm.1, if_pos hm.2]
    · rw [hbase, if_neg hn.1, if_neg hn.2]

lemma scanFloat_10K : scanFloat "10K".toList = some (10, ['K']) := by
  simp [scanFloat, scanExp, digitsToNat, cIsSpace]

/-- Witness for C8 on the labels "10K" (kilo suffix) and "x" (no leading
number). -/
theorem claim_C8_witness :
    scanFloat "10K".toList = some (10, ['K']) ∧
    ((scanSuffix ['K']).contains 'K' ∨ (scanSuffix ['K']).contains 'k') ∧
    parse_resistor_value "10K" = 10 * 1000 ∧
    scanFloat "x".toList = none ∧
    parse_resistor_value "x" = 0 :=
  ⟨scanFloat_10K, by decide,
    ((claim_C8 "10K").2 10 ['K'] scanFloat_10K).1 (by decide),
    by decide, (claim_C8 "x").1 (by decide)⟩
